import Mathlib

/-!
Verification of the SFE4030 repository against its specification.

The repository holds two independent programs:

* `ROMAN/roman_to_int_strict.py` — a regex-validated Roman-numeral converter.
* A YouTube download-and-merge worker, present in two variants:
  `youtubr/ghost_workers/worker.py` (the "worker-module" variant) and
  `youtubr-FINAL PROJECT/gpt.py` (the "final-project" variant).

Python's arbitrary-precision integers are embedded as `ℤ`/`ℕ`; Python float
arithmetic on the small decimal constants (0.40, 0.20, 0.99, 0.005) is
idealised as exact rational arithmetic over `ℚ`.  Strings are embedded as
`String` or `List Char`; Python's Unicode-wide `str.isalnum`/`str.rstrip`
are restricted to the ASCII alphabet of the embedded titles.  Stateful,
exception-throwing code is embedded as pure trace-producing functions over
an explicit environment recording the outcomes of the external
collaborators (stream provider, ffmpeg subprocess, filesystem).
-/

/-- Python's `int(x)` conversion on a real number: truncation toward zero. -/
def pyInt (q : ℚ) : ℤ :=
  if 0 ≤ q then ⌊q⌋ else ⌈q⌉

/-- The sequential clamp in `gpt.py Worker._emit_unified_progress`:
`if percent < 0: percent = 0` followed by `if percent > 100: percent = 100`. -/
def clampPercent (p : ℤ) : ℤ :=
  if p < 0 then 0 else if p > 100 then 100 else p

/-- `gpt.py Worker.__init__`: `self.W_VIDEO = 0.40`. -/
def W_VIDEO : ℚ := 2/5

/-- `gpt.py Worker.__init__`: `self.W_AUDIO = 0.40`. -/
def W_AUDIO : ℚ := 2/5

/-- `gpt.py Worker.__init__`: `self.W_MERGE = 0.20`. -/
def W_MERGE : ℚ := 1/5

/-- `gpt.py Worker._emit_unified_progress`: computes the unified percent that
is emitted on the `progress` signal.  A size of `0` is falsy in Python, so the
corresponding fraction is `0.0`; the result of `int(unified * 100)` is then
clamped into `[0, 100]`. -/
def emit_unified_progress (videoSize audioSize videoDone audioDone : ℤ)
    (mergeFraction : ℚ) : ℤ :=
  clampPercent (pyInt
    (((if videoSize = 0 then 0 else (videoDone : ℚ) / (videoSize : ℚ)) * W_VIDEO
      + (if audioSize = 0 then 0 else (audioDone : ℚ) / (audioSize : ℚ)) * W_AUDIO
      + mergeFraction * W_MERGE) * 100))

/-- `gpt.py Worker.run`: `if self.video_size == 0: self.video_size = 1`
(and likewise for audio) — the sentinel substitution for unknown sizes. -/
def sizeOrSentinel (n : ℤ) : ℤ :=
  if n = 0 then 1 else n

/-- `gpt.py Worker.run`, merge loop: `frac = min(0.99, elapsed / ramp_seconds)`
with `ramp_seconds = 12.0`. -/
def mergeFracAt (elapsed : ℚ) : ℚ :=
  min (99/100) (elapsed / 12)

/-- `gpt.py Worker.run`, merge loop body: one fraction per poll iteration in
which the subprocess is still alive, emitted only when
`abs(frac - last_emit) >= 0.005`; `last_emit` starts at `0.0`. -/
def rampEmits : List ℚ → ℚ → List ℚ
  | [], _ => []
  | t :: ts, lastEmit =>
      let frac := mergeFracAt t
      if (1/200 : ℚ) ≤ |frac - lastEmit| then frac :: rampEmits ts frac
      else rampEmits ts lastEmit

/-- The full sequence of merge-phase fractions of `gpt.py Worker.run`: the
ramp fractions sampled at the given elapsed times while ffmpeg runs, followed
by the single forced `1.0` when the subprocess exited with status 0. -/
def mergeSimFractions (times : List ℚ) (exitSuccess : Bool) : List ℚ :=
  rampEmits times 0 ++ (if exitSuccess then [1] else [])

/-- `ROMAN/roman_to_int_strict.py`: the `roman_map` dictionary.  The Python
dict raises `KeyError` on other characters, but it is only consulted after the
regex validation, which admits only these seven characters. -/
def romanVal : Char → ℤ
  | 'I' => 1
  | 'V' => 5
  | 'X' => 10
  | 'L' => 50
  | 'C' => 100
  | 'D' => 500
  | 'M' => 1000
  | _ => 0

/-- `ROMAN/roman_to_int_strict.py`: the conversion loop — each character is
subtracted when its value is strictly below the value of its successor, and
added otherwise. -/
def convertLoop : List Char → ℤ
  | [] => 0
  | [c] => romanVal c
  | c :: d :: rest =>
      (if romanVal c < romanVal d then -(romanVal c) else romanVal c)
        + convertLoop (d :: rest)

/-- The language of regex group `(M{0,3})`. -/
def thousandsAlts : List (List Char) :=
  [[], ['M'], ['M', 'M'], ['M', 'M', 'M']]

/-- The language of regex group `(CM|CD|D?C{0,3})`. -/
def hundredsAlts : List (List Char) :=
  [['C', 'M'], ['C', 'D'], [], ['C'], ['C', 'C'], ['C', 'C', 'C'],
   ['D'], ['D', 'C'], ['D', 'C', 'C'], ['D', 'C', 'C', 'C']]

/-- The language of regex group `(XL|XC|L?X{0,3})`. -/
def tensAlts : List (List Char) :=
  [['X', 'L'], ['X', 'C'], [], ['X'], ['X', 'X'], ['X', 'X', 'X'],
   ['L'], ['L', 'X'], ['L', 'X', 'X'], ['L', 'X', 'X', 'X']]

/-- The language of regex group `(IV|IX|V?I{0,3})`. -/
def onesAlts : List (List Char) :=
  [['I', 'V'], ['I', 'X'], [], ['I'], ['I', 'I'], ['I', 'I', 'I'],
   ['V'], ['V', 'I'], ['V', 'I', 'I'], ['V', 'I', 'I', 'I']]

/-- `ROMAN/roman_to_int_strict.py`: `roman_pattern.fullmatch(s)` — a string
fully matches `^(M{0,3})(CM|CD|D?C{0,3})(XL|XC|L?X{0,3})(IV|IX|V?I{0,3})$`
exactly when it splits as one alternative from each of the four groups. -/
def isValidRoman (s : List Char) : Bool :=
  thousandsAlts.any fun a =>
    hundredsAlts.any fun b =>
      tensAlts.any fun c =>
        onesAlts.any fun d => s == a ++ b ++ c ++ d

/-- `ROMAN/roman_to_int_strict.py roman_to_int_strict`: the empty string
returns `0` before validation; a string failing the regex raises `ValueError`
(embedded as `Except.error`); a matching string is converted by the loop. -/
def roman_to_int_strict (s : List Char) : Except String ℤ :=
  if s.isEmpty then .ok 0
  else if isValidRoman s then .ok (convertLoop s)
  else .error (String.mk s ++
    " is not a valid Roman numeral string (e.g., invalid characters, repetition, or sequence).")

/-- A stream offered by the stream-provider catalog (`pytubefix` stream
attributes used by both worker variants).  `res` is the numeric resolution in
pixels of a video stream, `abr` the numeric audio bitrate in kbps. -/
structure StreamDesc where
  itag : ℕ
  fileExtension : String
  onlyVideo : Bool
  onlyAudio : Bool
  adaptive : Bool
  res : ℕ
  abr : ℕ
deriving DecidableEq

/-- The video filter of both variants:
`yt.streams.filter(file_extension="mp4", only_video=True, res=["1080p", "720p", "480p"])`. -/
def videoMatch (s : StreamDesc) : Bool :=
  s.fileExtension == "mp4" && s.onlyVideo
    && (s.res == 1080 || s.res == 720 || s.res == 480)

/-- The audio filter of both variants:
`yt.streams.filter(adaptive=True, file_extension="mp4", only_audio=True)`. -/
def audioMatch (s : StreamDesc) : Bool :=
  s.adaptive && s.fileExtension == "mp4" && s.onlyAudio

/-- The provider's `.order_by(key).desc().first()` pipeline: stable sort
ascending by the key, reverse, take the head. -/
def orderByDescFirst (key : StreamDesc → ℕ) (l : List StreamDesc) :
    Option StreamDesc :=
  ((List.insertionSort (fun a b => key a ≤ key b) l).reverse).head?

/-- Video-stream selection shared by both variants. -/
def selectVideo (catalog : List StreamDesc) : Option StreamDesc :=
  orderByDescFirst (fun s => s.res) (catalog.filter videoMatch)

/-- Audio-stream selection shared by both variants. -/
def selectAudio (catalog : List StreamDesc) : Option StreamDesc :=
  orderByDescFirst (fun s => s.abr) (catalog.filter audioMatch)

/-- Python `str.rstrip()` whitespace set, restricted to ASCII. -/
def pyIsSpace (c : Char) : Bool :=
  c = ' ' || c = '\t' || c = '\n' || c = '\x0b' || c = '\x0c' || c = '\r'

/-- Python `str.rstrip()`: drop trailing whitespace. -/
def rstrip (l : List Char) : List Char :=
  (l.reverse.dropWhile pyIsSpace).reverse

/-- The character filter `c.isalnum() or c in " _-"` of both variants
(Python's Unicode-wide `isalnum` restricted to ASCII alphanumerics). -/
def allowedChar (c : Char) : Bool :=
  c.isAlphanum || c = ' ' || c = '_' || c = '-'

/-- `gpt.py Worker.run`:
`"".join(c for c in yt.title if c.isalnum() or c in " _-").rstrip() or "ytdl"`. -/
def gptSafeTitle (title : List Char) : List Char :=
  let s := rstrip (title.filter allowedChar)
  if s.isEmpty then "ytdl".data else s

/-- `worker.py Worker.download_video`:
`"".join(c for c in yt.title if c.isalnum() or c in " _-").rstrip()` —
note the absence of any fallback name. -/
def wkSafeTitle (title : List Char) : List Char :=
  rstrip (title.filter allowedChar)

/-- `gpt.py Worker.run`: `path.join("/tmp", "ytbr_" + uuid.uuid4().hex)` —
the scratch folder of one final-project job, as a function of the uuid hex
drawn for that job. -/
def gptTempFolder (uuidHex : String) : String :=
  "/tmp/ytbr_" ++ uuidHex

/-- `worker.py Worker.__init__`: `self.temp_yt_folder = "/tmp/ytbr"` — a
constant, whatever the job's url and destination folder are. -/
def wkTempFolder (_url _folderPath : String) : String :=
  "/tmp/ytbr"

/-- A Qt signal emission of either worker (`WorkerSignals`). -/
inductive Event where
  | progress (n : ℤ)
  | message (s : String)
  | error (s : String)
  | finished
deriving DecidableEq

/-- One observable action of a worker run: a signal emission or a side effect
on the filesystem / subprocesses. -/
inductive Act where
  | makeDirs (p : String)
  | downloadVideo (itag : ℕ)
  | downloadAudio (itag : ℕ)
  | spawnMerge (output : String)
  | removeTree (p : String)
  | emit (e : Event)
deriving DecidableEq

/-- The signal emissions of a trace, in order. -/
def eventsOf (tr : List Act) : List Event :=
  tr.filterMap fun a =>
    match a with
    | .emit e => some e
    | _ => none

/-- How many `finished` signals a trace emits. -/
def countFinished (tr : List Act) : ℕ :=
  (eventsOf tr).count .finished

/-- Environment of one `gpt.py Worker.run` job: the url (already stripped in
`__init__`), the destination folder, the uuid hex drawn for the scratch
folder, and the outcomes of every external interaction — metadata resolution
(`Except.error` is any exception raised by the provider), raw declared stream
sizes, the `bytes_remaining` values passed to the progress callback during
each download, exceptions of the two downloads / the ffmpeg spawn / the final
`communicate`, the elapsed times observed at the merge-poll iterations, and
ffmpeg's exit code and stderr. -/
structure GptEnv where
  url : String
  folderPath : String
  uuidHex : String
  resolve : Except String (List StreamDesc × String)
  videoSizeRaw : ℤ
  audioSizeRaw : ℤ
  videoRemaining : List ℤ
  audioRemaining : List ℤ
  videoDlExn : Option String
  audioDlExn : Option String
  spawnExn : Option String
  commExn : Option String
  pollElapsed : List ℚ
  returncode : ℤ
  stderrText : String

/-- `gpt.py Worker.on_progress_callback` during the video download: `done`
is clamped into `[0, total]` and the unified percent is emitted with the
current counters (`audio_done = 0`). -/
def gptVideoCallbackActs (raw vs asz : ℤ) (rems : List ℤ) : List Act :=
  rems.map fun r =>
    .emit (.progress (emit_unified_progress vs asz (max 0 (min raw (raw - r))) 0 0))

/-- `gpt.py Worker.on_progress_callback` during the audio download
(`video_done` already forced to `video_size`). -/
def gptAudioCallbackActs (raw vs asz : ℤ) (rems : List ℤ) : List Act :=
  rems.map fun r =>
    .emit (.progress (emit_unified_progress vs asz vs (max 0 (min raw (raw - r))) 0))

/-- The trace of one `gpt.py Worker.run` job.  Every failure outcome ends the
trace through the early `return`s or the final `except` clause; only the
success path reaches `self.worker_signals.finished.emit()`.  No path removes
the scratch folder. -/
def gptRun (env : GptEnv) : List Act :=
  if env.url = "" then [.emit (.error "No URL provided")]
  else
    [.makeDirs env.folderPath, .makeDirs (gptTempFolder env.uuidHex)] ++
    match env.resolve with
    | .error m => [.emit (.error m)]
    | .ok (catalog, title) =>
      match selectVideo catalog, selectAudio catalog with
      | some v, some a =>
        let vs := sizeOrSentinel env.videoSizeRaw
        let asz := sizeOrSentinel env.audioSizeRaw
        let outputFile :=
          env.folderPath ++ "/" ++ String.mk (gptSafeTitle title.data) ++ ".mp4"
        [.emit (.message "Downloading video..."), .downloadVideo v.itag] ++
        gptVideoCallbackActs env.videoSizeRaw vs asz env.videoRemaining ++
        (match env.videoDlExn with
         | some m => [.emit (.error m)]
         | none =>
           [.emit (.progress (emit_unified_progress vs asz vs 0 0)),
            .emit (.message "Downloading audio..."), .downloadAudio a.itag] ++
           gptAudioCallbackActs env.audioSizeRaw vs asz env.audioRemaining ++
           (match env.audioDlExn with
            | some m => [.emit (.error m)]
            | none =>
              [.emit (.progress (emit_unified_progress vs asz vs asz 0)),
               .makeDirs env.folderPath,
               .emit (.message "Merging streams...")] ++
              (match env.spawnExn with
               | some m => [.emit (.error m)]
               | none =>
                 [.spawnMerge outputFile] ++
                 (rampEmits env.pollElapsed 0).map
                   (fun f => .emit (.progress (emit_unified_progress vs asz vs asz f))) ++
                 (match env.commExn with
                  | some m => [.emit (.error m)]
                  | none =>
                    if env.returncode = 0 then
                      [.emit (.progress (emit_unified_progress vs asz vs asz 1)),
                       .emit (.message " Download Complete ✔ "),
                       .emit .finished]
                    else
                      [.emit (.error ("ffmpeg failed: " ++ env.stderrText.take 400))]))))
      | _, _ => [.emit (.error "No suitable video or audio streams found")]

/-- The conditions under which `gpt.py Worker.run` reaches its success tail. -/
def gptSuccess (env : GptEnv) : Bool :=
  !(env.url == "") &&
  (match env.resolve with
   | .error _ => false
   | .ok (catalog, _) => (selectVideo catalog).isSome && (selectAudio catalog).isSome) &&
  env.videoDlExn.isNone && env.audioDlExn.isNone &&
  env.spawnExn.isNone && env.commExn.isNone && env.returncode == 0

/-- Outcome of the `YouTube(...)` construction and stream queries in
`worker.py Worker.download_video`: success, or one of the three caught
exception classes.  After the generic `except Exception` clause the method
falls through to code referencing the (unassigned) `video_stream`, so a
`NameError` escapes to `Worker.run`. -/
inductive WkResolve where
  | ok (catalog : List StreamDesc) (title : String)
  | regexErr
  | unavailable (msg : String)
  | otherExn (msg : String)

/-- Outcome of `worker.py Worker.ffmpeg_merge`'s `subprocess.run` call, with
`estr` the `str(e)` of the raised exception where applicable. -/
inductive WkMergeOutcome where
  | success
  | failed (stderr : String) (estr : String)
  | notFound (estr : String)
  | otherExn (estr : String)

/-- Environment of one `worker.py` job. -/
structure WkEnv where
  url : String
  folderPath : String
  resolve : WkResolve
  videoSizeRaw : ℤ
  audioSizeRaw : ℤ
  videoRemaining : List ℤ
  audioRemaining : List ℤ
  videoDlExn : Option String
  audioDlExn : Option String
  merge : WkMergeOutcome
  tempExists : Bool
  rmtreeExn : Option String

/-- `worker.py Worker.on_progress_callback`:
`percent = int(done * 100 / total)` with no clamping; a zero `filesize`
raises `ZeroDivisionError`, caught inside the callback and reported on the
`error` signal. -/
def wkCallbackActs (total : ℤ) (rems : List ℤ) : List Act :=
  rems.map fun r =>
    .emit (if total = 0 then .error "Progress callback error: division by zero"
           else .progress (pyInt (((total - r : ℤ) : ℚ) * 100 / (total : ℚ))))

/-- The trace of `worker.py Worker.download_video` together with the message
of the exception escaping it, if any.  Selection failures and the three
caught resolution exceptions `return` after emitting `error`; download
exceptions propagate to `Worker.run`; merge failures are caught locally (the
inner `ffmpeg_merge` handler emits a detailed `error` and re-raises, and the
caller's handler emits `str(e)`). -/
def wkDownloadVideo (env : WkEnv) : List Act × Option String :=
  let tmp := "/tmp/ytbr"
  let base := [Act.makeDirs tmp]
  match env.resolve with
  | .regexErr => (base ++ [.emit (.error "Invalid YouTube URL structure.")], none)
  | .unavailable m => (base ++ [.emit (.error ("Video unavailable: " ++ m))], none)
  | .otherExn m =>
      (base ++ [.emit (.error ("Error: " ++ m))],
       some "name 'video_stream' is not defined")
  | .ok catalog title =>
    match selectVideo catalog, selectAudio catalog with
    | some v, some a =>
      let pre := base ++
        [.emit (.message "Downloading video (1/2) .."), .downloadVideo v.itag] ++
        wkCallbackActs env.videoSizeRaw env.videoRemaining
      (match env.videoDlExn with
       | some m => (pre, some m)
       | none =>
         let pre2 := pre ++
           [.emit (.progress 80), .emit (.message "Downloading audio (2/2)"),
            .downloadAudio a.itag] ++
           wkCallbackActs env.audioSizeRaw env.audioRemaining
         match env.audioDlExn with
         | some m => (pre2, some m)
         | none =>
           let outFile :=
             env.folderPath ++ "/" ++ String.mk (wkSafeTitle title.data) ++ ".mp4"
           let pre3 := pre2 ++ [.emit (.progress 90), .emit (.message "Merging…😃")]
           match env.merge with
           | .success =>
               (pre3 ++ [.spawnMerge outFile, .emit (.progress 100),
                 .emit (.message ("Downloaded ↘ " ++
                   String.mk (wkSafeTitle title.data) ++ ".mp4"))], none)
           | .failed stderr estr =>
               (pre3 ++ [.spawnMerge outFile,
                 .emit (.error ("FFmpeg merge failed. Command: ffmpeg -y -i " ++
                   tmp ++ "/video.mp4 -i " ++ tmp ++ "/audio.mp4 -c copy " ++
                   outFile ++ ". Stderr: " ++ stderr)),
                 .emit (.error estr)], none)
           | .notFound estr =>
               (pre3 ++ [.spawnMerge outFile,
                 .emit (.error "FFmpeg not found in $PATH."),
                 .emit (.error estr)], none)
           | .otherExn estr =>
               (pre3 ++ [.spawnMerge outFile,
                 .emit (.error "Ffmpeg merger failed:"),
                 .emit (.error estr)], none))
    | _, _ =>
      (base ++ [.emit (.error "No suitable video or audio streams found")], none)

/-- The trace of one `worker.py Worker.run` job: the body, the `error`
emission for any escaped exception, then — in the `finally` block — the
`finished` emission followed by the cleanup attempt (with its own `error`
emission if `shutil.rmtree` raises). -/
def wkRun (env : WkEnv) : List Act :=
  let body := wkDownloadVideo env
  body.1 ++
  (match body.2 with
   | some m => [.emit (.error m)]
   | none => []) ++
  [.emit .finished] ++
  (if env.tempExists then
     match env.rmtreeExn with
     | none => [.removeTree "/tmp/ytbr"]
     | some _ => [.removeTree "/tmp/ytbr",
                  .emit (.error "Failed to clean up tempFiles:")]
   else [])

/-- Whether an action is a recursive scratch-folder deletion. -/
def isRemoveTree : Act → Bool
  | .removeTree _ => true
  | _ => false

/-- How many times a trace emits the `finished` signal. -/
def finishedCount : List Act → ℕ
  | [] => 0
  | .emit .finished :: tr => finishedCount tr + 1
  | _ :: tr => finishedCount tr

/-- A catalog entry passing the video filter. -/
def vStream : StreamDesc :=
  { itag := 1, fileExtension := "mp4", onlyVideo := true, onlyAudio := false,
    adaptive := true, res := 720, abr := 0 }

/-- A catalog entry passing the audio filter. -/
def aStream : StreamDesc :=
  { itag := 2, fileExtension := "mp4", onlyVideo := false, onlyAudio := true,
    adaptive := true, res := 0, abr := 128 }

/-- A fully successful final-project job environment. -/
def gptEnvSuccess : GptEnv :=
  { url := "https://youtu.be/x", folderPath := "/home/u/Videos",
    uuidHex := "aaaa",
    resolve := .ok ([vStream, aStream], "My Video: Part #1?"),
    videoSizeRaw := 1000, audioSizeRaw := 100,
    videoRemaining := [], audioRemaining := [],
    videoDlExn := none, audioDlExn := none, spawnExn := none, commExn := none,
    pollElapsed := [], returncode := 0, stderrText := "" }

/-- The same final-project job with an empty url. -/
def gptEnvEmptyUrl : GptEnv :=
  { gptEnvSuccess with url := "" }

/-- The same final-project job over a catalog with no audio-only stream. -/
def gptEnvNoAudio : GptEnv :=
  { gptEnvSuccess with resolve := .ok ([vStream], "t") }

/-- A worker-module job whose resolution raises `RegexMatchError` and whose
scratch folder exists at cleanup time. -/
def wkEnvRegex : WkEnv :=
  { url := "u", folderPath := "/f", resolve := .regexErr,
    videoSizeRaw := 0, audioSizeRaw := 0,
    videoRemaining := [], audioRemaining := [],
    videoDlExn := none, audioDlExn := none, merge := .success,
    tempExists := true, rmtreeExn := none }

example : roman_to_int_strict "MCMXCIV".data = .ok 1994 := by rfl
example : (roman_to_int_strict "IIII".data).isOk = false := by rfl
example : emit_unified_progress 2 4 1 2 (1/2) = 50 := by
  norm_num [emit_unified_progress, pyInt, clampPercent, W_VIDEO, W_AUDIO, W_MERGE]
example : emit_unified_progress 0 0 5 5 0 = 0 := by
  norm_num [emit_unified_progress, pyInt, clampPercent, W_VIDEO, W_AUDIO, W_MERGE]

theorem clampPercent_eq_max_min (p : ℤ) : clampPercent p = max 0 (min 100 p) := by
  simp only [clampPercent]
  split
  · omega
  · split <;> omega

theorem clampPercent_range (p : ℤ) : 0 ≤ clampPercent p ∧ clampPercent p ≤ 100 := by
  simp only [clampPercent]
  split
  · omega
  · split <;> omega

theorem emit_unified_progress_range (vs asz vd ad : ℤ) (m : ℚ) :
    0 ≤ emit_unified_progress vs asz vd ad m
      ∧ emit_unified_progress vs asz vd ad m ≤ 100 :=
  clampPercent_range _

/-- C1: for declared sizes `video_size > 0` and `audio_size > 0`, done
counters within `[0, size]` and a merge fraction in `[0, 1]`, the unified
percent emitted by `_emit_unified_progress` is the truncation of
`100 * (0.40 * video_done/video_size + 0.40 * audio_done/audio_size +
0.20 * merge)` clamped into `[0, 100]`, and in particular always lies in
`[0, 100]`. -/
theorem progress_unifier_formula (vs asz vd ad : ℤ) (m : ℚ)
    (hvs : 0 < vs) (hasz : 0 < asz)
    (hvd0 : 0 ≤ vd) (hvd : vd ≤ vs) (had0 : 0 ≤ ad) (had : ad ≤ asz)
    (hm0 : 0 ≤ m) (hm1 : m ≤ 1) :
    emit_unified_progress vs asz vd ad m
      = max 0 (min 100 (pyInt (100 * ((2/5) * ((vd : ℚ) / (vs : ℚ))
          + (2/5) * ((ad : ℚ) / (asz : ℚ)) + (1/5) * m))))
    ∧ 0 ≤ emit_unified_progress vs asz vd ad m
    ∧ emit_unified_progress vs asz vd ad m ≤ 100 := by
  refine ⟨?_, emit_unified_progress_range vs asz vd ad m⟩
  unfold emit_unified_progress
  rw [if_neg hvs.ne', if_neg hasz.ne', clampPercent_eq_max_min]
  congr 3
  unfold W_VIDEO W_AUDIO W_MERGE
  ring

theorem progress_unifier_formula_witness :
    (0 : ℤ) < 2 ∧ 0 ≤ emit_unified_progress 2 4 1 2 (1/2)
      ∧ emit_unified_progress 2 4 1 2 (1/2) ≤ 100 :=
  ⟨by norm_num,
   (progress_unifier_formula 2 4 1 2 (1/2) (by norm_num) (by norm_num)
     (by norm_num) (by norm_num) (by norm_num) (by norm_num) (by norm_num)
     (by norm_num)).2⟩

/-- C4: the unifier is total on every input — a size of `0` contributes a
zero fraction (no division by zero; the orchestrator additionally
substitutes the sentinel `1` for a declared size of `0`), and the emitted
percent always lies in `[0, 100]`, even for malformed inputs such as
`bytes_done > bytes_total` or negative values. -/
theorem progress_unifier_safe :
    (∀ vs asz vd ad : ℤ, ∀ m : ℚ,
       0 ≤ emit_unified_progress vs asz vd ad m
         ∧ emit_unified_progress vs asz vd ad m ≤ 100)
    ∧ sizeOrSentinel 0 = 1
    ∧ (∀ asz vd vd' ad : ℤ, ∀ m : ℚ,
        emit_unified_progress 0 asz vd ad m
          = emit_unified_progress 0 asz vd' ad m) := by
  refine ⟨fun vs asz vd ad m => emit_unified_progress_range vs asz vd ad m,
    rfl, ?_⟩
  intro asz vd vd' ad m
  simp [emit_unified_progress]

theorem mergeFracAt_mono {t u : ℚ} (h : t ≤ u) :
    mergeFracAt t ≤ mergeFracAt u := by
  unfold mergeFracAt
  exact min_le_min le_rfl ((div_le_div_right (by norm_num)).mpr h)

theorem mergeFracAt_nonneg {t : ℚ} (h : 0 ≤ t) : 0 ≤ mergeFracAt t :=
  le_min (by norm_num) (div_nonneg h (by norm_num))

theorem rampEmits_props (ts : List ℚ) :
    ∀ lastE : ℚ, ts.Pairwise (· ≤ ·) →
    (∀ t ∈ ts, lastE ≤ mergeFracAt t) →
    (rampEmits ts lastE).Chain' (· ≤ ·) ∧
      ∀ x ∈ rampEmits ts lastE, lastE ≤ x ∧ x ≤ 99/100 := by
  induction ts with
  | nil => intro lastE _ _; simp [rampEmits]
  | cons t ts ih =>
    intro lastE hp hinv
    rw [List.pairwise_cons] at hp
    obtain ⟨hts, hp'⟩ := hp
    have hlt : lastE ≤ mergeFracAt t := hinv t (by simp)
    simp only [rampEmits]
    by_cases hcond : (1/200 : ℚ) ≤ |mergeFracAt t - lastE|
    · rw [if_pos hcond]
      have hinv' : ∀ u ∈ ts, mergeFracAt t ≤ mergeFracAt u :=
        fun u hu => mergeFracAt_mono (hts u hu)
      obtain ⟨hchain, hbound⟩ := ih (mergeFracAt t) hp' hinv'
      constructor
      · rw [List.chain'_cons']
        exact ⟨fun y hy => (hbound y (List.mem_of_mem_head? hy)).1, hchain⟩
      · intro x hx
        rcases List.mem_cons.mp hx with rfl | hx
        · exact ⟨hlt, min_le_left _ _⟩
        · obtain ⟨h1, h2⟩ := hbound x hx
          exact ⟨le_trans hlt h1, h2⟩
    · rw [if_neg hcond]
      exact ih lastE hp' fun u hu => hinv u (List.mem_cons_of_mem t hu)

/-- C5: for non-decreasing, non-negative sampled elapsed times, the merge
simulator's emitted fraction sequence is non-decreasing; every fraction
emitted while the subprocess is still running is capped at `0.99`; and on
subprocess success the sequence ends with exactly one fraction equal to
`1.0`, which is its last element. -/
theorem merge_sim_monotone (times : List ℚ)
    (hsort : times.Pairwise (· ≤ ·)) (hpos : ∀ t ∈ times, 0 ≤ t) :
    (mergeSimFractions times true).Chain' (· ≤ ·)
    ∧ (∀ x ∈ rampEmits times 0, x ≤ 99/100)
    ∧ (mergeSimFractions times true).count 1 = 1
    ∧ (mergeSimFractions times true).getLast? = some 1 := by
  obtain ⟨hchain, hbound⟩ :=
    rampEmits_props times 0 hsort fun t ht => mergeFracAt_nonneg (hpos t ht)
  have hnotmem : (1 : ℚ) ∉ rampEmits times 0 := by
    intro hmem
    have := (hbound 1 hmem).2
    norm_num at this
  refine ⟨?_, fun x hx => (hbound x hx).2, ?_, ?_⟩
  · simp only [mergeSimFractions, if_pos]
    rw [List.chain'_append]
    refine ⟨hchain, List.chain'_singleton 1, ?_⟩
    intro x hx y hy
    simp only [List.head?_cons, Option.mem_def, Option.some.injEq] at hy
    subst hy
    have := (hbound x (List.mem_of_getLast?_eq_some hx)).2
    linarith
  · simp only [mergeSimFractions, if_pos, List.count_append]
    rw [List.count_eq_zero.mpr hnotmem]
    simp
  · simp only [mergeSimFractions, if_pos]
    exact List.getLast?_concat _

theorem merge_sim_monotone_witness :
    (mergeSimFractions [0, 6] true).count 1 = 1 :=
  (merge_sim_monotone [0, 6] (by norm_num [List.pairwise_cons])
    (by intro t ht
        simp only [List.mem_cons, List.not_mem_nil, or_false] at ht
        rcases ht with rfl | rfl <;> norm_num)).2.2.1

theorem roman_alts_range :
    (thousandsAlts.all fun a => hundredsAlts.all fun b => tensAlts.all fun c =>
      onesAlts.all fun d =>
        (a ++ b ++ c ++ d).isEmpty
          || (decide (1 ≤ convertLoop (a ++ b ++ c ++ d))
              && decide (convertLoop (a ++ b ++ c ++ d) ≤ 3999))) = true := by
  decide

theorem convertLoop_valid_range (s : List Char) (hne : s ≠ [])
    (hv : isValidRoman s = true) :
    1 ≤ convertLoop s ∧ convertLoop s ≤ 3999 := by
  unfold isValidRoman at hv
  rw [List.any_eq_true] at hv
  obtain ⟨a, ha, hv⟩ := hv
  rw [List.any_eq_true] at hv
  obtain ⟨b, hb, hv⟩ := hv
  rw [List.any_eq_true] at hv
  obtain ⟨c, hc, hv⟩ := hv
  rw [List.any_eq_true] at hv
  obtain ⟨d, hd, hv⟩ := hv
  have hs : s = a ++ b ++ c ++ d := eq_of_beq hv
  have hall := roman_alts_range
  rw [List.all_eq_true] at hall
  have h1 := hall a ha
  rw [List.all_eq_true] at h1
  have h2 := h1 b hb
  rw [List.all_eq_true] at h2
  have h3 := h2 c hc
  rw [List.all_eq_true] at h3
  have h4 := h3 d hd
  rw [Bool.or_eq_true, Bool.and_eq_true] at h4
  rcases h4 with hemp | ⟨hlo, hhi⟩
  · exact absurd (hs ▸ List.isEmpty_iff.mp hemp) hne
  · rw [hs]
    exact ⟨of_decide_eq_true hlo, of_decide_eq_true hhi⟩

/-- C9: for every non-empty string, `roman_to_int_strict` raises `ValueError`
exactly when the string does not fully match
`^(M{0,3})(CM|CD|D?C{0,3})(XL|XC|L?X{0,3})(IV|IX|V?I{0,3})$`; for every
non-empty matching string it raises nothing and returns an integer in
`[1, 3999]`. -/
theorem roman_strict_validation (s : List Char) (hne : s ≠ []) :
    (isValidRoman s = false ↔
      roman_to_int_strict s = .error (String.mk s ++
        " is not a valid Roman numeral string (e.g., invalid characters, repetition, or sequence)."))
    ∧ (isValidRoman s = true →
        ∃ n, roman_to_int_strict s = .ok n ∧ 1 ≤ n ∧ n ≤ 3999) := by
  have hemp : s.isEmpty = false := by
    rw [Bool.eq_false_iff]
    intro h
    exact hne (List.isEmpty_iff.mp h)
  constructor
  · constructor
    · intro hv
      simp [roman_to_int_strict, hemp, hv]
    · intro herr
      cases h : isValidRoman s with
      | false => rfl
      | true => simp [roman_to_int_strict, hemp, h] at herr
  · intro hv
    obtain ⟨h1, h2⟩ := convertLoop_valid_range s hne hv
    exact ⟨convertLoop s, by simp [roman_to_int_strict, hemp, hv], h1, h2⟩

theorem roman_strict_validation_witness :
    ∃ n, roman_to_int_strict "MCMXCIV".data = .ok n ∧ 1 ≤ n ∧ n ≤ 3999 :=
  (roman_strict_validation "MCMXCIV".data (by decide)).2 (by decide)

/-- C10: `roman_to_int_strict` applied to the empty string returns `0`
without raising, and the empty string is the only input mapped to `0` (every
valid non-empty numeral converts to at least `1`, and every invalid
non-empty string raises). -/
theorem roman_empty_string_zero :
    roman_to_int_strict [] = .ok 0
    ∧ ∀ s : List Char, roman_to_int_strict s = .ok 0 → s = [] := by
  refine ⟨rfl, ?_⟩
  intro s h
  by_contra hne
  have hemp : s.isEmpty = false := by
    rw [Bool.eq_false_iff]
    intro hx
    exact hne (List.isEmpty_iff.mp hx)
  cases hv : isValidRoman s with
  | false => simp [roman_to_int_strict, hemp, hv] at h
  | true =>
    have hge := (convertLoop_valid_range s hne hv).1
    simp [roman_to_int_strict, hemp, hv] at h
    omega

theorem roman_empty_string_zero_witness : ([] : List Char) = [] :=
  roman_empty_string_zero.2 [] (by rfl)

@[simp] theorem eventsOf_nil : eventsOf [] = [] := rfl

@[simp] theorem eventsOf_cons_emit (e : Event) (tr : List Act) :
    eventsOf (.emit e :: tr) = e :: eventsOf tr := rfl

@[simp] theorem eventsOf_cons_makeDirs (p : String) (tr : List Act) :
    eventsOf (.makeDirs p :: tr) = eventsOf tr := rfl

@[simp] theorem eventsOf_cons_downloadVideo (i : ℕ) (tr : List Act) :
    eventsOf (.downloadVideo i :: tr) = eventsOf tr := rfl

@[simp] theorem eventsOf_cons_downloadAudio (i : ℕ) (tr : List Act) :
    eventsOf (.downloadAudio i :: tr) = eventsOf tr := rfl

@[simp] theorem eventsOf_cons_spawnMerge (p : String) (tr : List Act) :
    eventsOf (.spawnMerge p :: tr) = eventsOf tr := rfl

@[simp] theorem eventsOf_cons_removeTree (p : String) (tr : List Act) :
    eventsOf (.removeTree p :: tr) = eventsOf tr := rfl

@[simp] theorem eventsOf_append (l1 l2 : List Act) :
    eventsOf (l1 ++ l2) = eventsOf l1 ++ eventsOf l2 :=
  List.filterMap_append _ _ _

@[simp] theorem eventsOf_map_emit {α : Type} (f : α → Event) (l : List α) :
    eventsOf (l.map fun x => Act.emit (f x)) = l.map f := by
  induction l with
  | nil => rfl
  | cons x xs ih => simpa [eventsOf, List.filterMap_cons] using ih

@[simp] theorem eventsOf_gptVideoCallbackActs (raw vs asz : ℤ) (rems : List ℤ) :
    eventsOf (gptVideoCallbackActs raw vs asz rems) = rems.map fun r =>
      Event.progress (emit_unified_progress vs asz (max 0 (min raw (raw - r))) 0 0) := by
  unfold gptVideoCallbackActs
  exact eventsOf_map_emit _ _

@[simp] theorem eventsOf_gptAudioCallbackActs (raw vs asz : ℤ) (rems : List ℤ) :
    eventsOf (gptAudioCallbackActs raw vs asz rems) = rems.map fun r =>
      Event.progress (emit_unified_progress vs asz vs (max 0 (min raw (raw - r))) 0) := by
  unfold gptAudioCallbackActs
  exact eventsOf_map_emit _ _

@[simp] theorem eventsOf_wkCallbackActs (total : ℤ) (rems : List ℤ) :
    eventsOf (wkCallbackActs total rems) = rems.map fun r =>
      (if total = 0 then Event.error "Progress callback error: division by zero"
       else Event.progress (pyInt (((total - r : ℤ) : ℚ) * 100 / (total : ℚ)))) := by
  unfold wkCallbackActs
  exact eventsOf_map_emit _ _

theorem finished_not_mem_map_progress {α : Type} (f : α → ℤ) (l : List α) :
    Event.finished ∉ l.map fun x => Event.progress (f x) := by
  intro hmem
  obtain ⟨x, _, hx⟩ := List.mem_map.mp hmem
  exact Event.noConfusion hx

theorem finished_not_mem_wk_callback_events (total : ℤ) (rems : List ℤ) :
    Event.finished ∉ eventsOf (wkCallbackActs total rems) := by
  rw [eventsOf_wkCallbackActs]
  intro hmem
  obtain ⟨x, _, hx⟩ := List.mem_map.mp hmem
  by_cases h : total = 0
  · rw [if_pos h] at hx
    exact Event.noConfusion hx
  · rw [if_neg h] at hx
    exact Event.noConfusion hx

theorem orderByDescFirst_none_iff (key : StreamDesc → ℕ) (l : List StreamDesc) :
    orderByDescFirst key l = none ↔ l = [] := by
  unfold orderByDescFirst
  rw [List.head?_eq_none_iff, List.reverse_eq_nil_iff]
  constructor
  · intro h
    have hlen := (List.perm_insertionSort (fun a b => key a ≤ key b) l).length_eq
    rw [h] at hlen
    exact List.eq_nil_of_length_eq_zero hlen.symm
  · intro h
    rw [h]
    rfl

theorem orderByDescFirst_some_max (key : StreamDesc → ℕ) (l : List StreamDesc)
    (v : StreamDesc) (hv : orderByDescFirst key l = some v) :
    v ∈ l ∧ ∀ s ∈ l, key s ≤ key v := by
  haveI : IsTotal StreamDesc (fun a b => key a ≤ key b) :=
    ⟨fun a b => le_total _ _⟩
  haveI : IsTrans StreamDesc (fun a b => key a ≤ key b) :=
    ⟨fun a b c hab hbc => le_trans hab hbc⟩
  unfold orderByDescFirst at hv
  have hsorted := List.sorted_insertionSort (fun a b => key a ≤ key b) l
  rcases hrev : (List.insertionSort (fun a b => key a ≤ key b) l).reverse with
    _ | ⟨h0, t⟩
  · rw [hrev] at hv
    exact absurd hv (by simp)
  · rw [hrev] at hv
    have hv0 : h0 = v := by
      simpa using hv
    subst hv0
    have hpair : (h0 :: t).Pairwise (fun a b => key b ≤ key a) := by
      rw [← hrev]
      rw [List.pairwise_reverse]
      exact hsorted
    rw [List.pairwise_cons] at hpair
    have hmem : h0 ∈ l := by
      have : h0 ∈ (List.insertionSort (fun a b => key a ≤ key b) l).reverse := by
        rw [hrev]; exact List.mem_cons_self _ _
      rw [List.mem_reverse, List.mem_insertionSort] at this
      exact this
    refine ⟨hmem, ?_⟩
    intro s hs
    have : s ∈ (List.insertionSort (fun a b => key a ≤ key b) l).reverse := by
      rw [List.mem_reverse, List.mem_insertionSort]
      exact hs
    rw [hrev] at this
    rcases List.mem_cons.mp this with rfl | hst
    · exact le_refl _
    · exact hpair.1 s hst

/-- C6: the stream selector picks a video-only mp4 stream of maximal
resolution within the `{1080, 720, 480}` allow-list and an adaptive
audio-only mp4 stream of maximal bitrate; when either candidate set is
empty the selection is `none`, and in that case both worker variants emit
the `No suitable video or audio streams found` error and never start a
download. -/
theorem stream_selector_correct (c : List StreamDesc) :
    (∀ v, selectVideo c = some v →
       videoMatch v = true ∧ ∀ s ∈ c, videoMatch s = true → s.res ≤ v.res)
    ∧ (∀ a, selectAudio c = some a →
       audioMatch a = true ∧ ∀ s ∈ c, audioMatch s = true → s.abr ≤ a.abr)
    ∧ (selectVideo c = none ↔ c.filter videoMatch = [])
    ∧ (selectAudio c = none ↔ c.filter audioMatch = [])
    ∧ (∀ env : GptEnv, ∀ title, env.url ≠ "" → env.resolve = .ok (c, title) →
        (selectVideo c = none ∨ selectAudio c = none) →
        (∀ i, Act.downloadVideo i ∉ gptRun env ∧ Act.downloadAudio i ∉ gptRun env)
        ∧ Event.error "No suitable video or audio streams found"
            ∈ eventsOf (gptRun env))
    ∧ (∀ env : WkEnv, ∀ title, env.resolve = .ok c title →
        (selectVideo c = none ∨ selectAudio c = none) →
        (wkDownloadVideo env).1 = [Act.makeDirs "/tmp/ytbr",
          .emit (.error "No suitable video or audio streams found")]) := by
  refine ⟨?_, ?_, ?_, ?_, ?_, ?_⟩
  · intro v hv
    obtain ⟨hmem, hmax⟩ := orderByDescFirst_some_max _ _ v hv
    rw [List.mem_filter] at hmem
    exact ⟨hmem.2, fun s hs hms => hmax s (List.mem_filter.mpr ⟨hs, hms⟩)⟩
  · intro a ha
    obtain ⟨hmem, hmax⟩ := orderByDescFirst_some_max _ _ a ha
    rw [List.mem_filter] at hmem
    exact ⟨hmem.2, fun s hs hms => hmax s (List.mem_filter.mpr ⟨hs, hms⟩)⟩
  · exact orderByDescFirst_none_iff _ _
  · exact orderByDescFirst_none_iff _ _
  · intro env title hurl hres hsel
    have htrace : gptRun env =
        [.makeDirs env.folderPath, .makeDirs (gptTempFolder env.uuidHex)] ++
        [.emit (.error "No suitable video or audio streams found")] := by
      rcases hsel with hsv | hsa
      · simp [gptRun, if_neg hurl, hres, hsv]
      · rcases hsv : selectVideo c with _ | v
        · simp [gptRun, if_neg hurl, hres, hsv]
        · simp [gptRun, if_neg hurl, hres, hsv, hsa]
    rw [htrace]
    refine ⟨fun i => ⟨?_, ?_⟩, ?_⟩
    · intro hmem
      simp at hmem
    · intro hmem
      simp at hmem
    · simp
  · intro env title hres hsel
    rcases hsel with hsv | hsa
    · simp [wkDownloadVideo, hres, hsv]
    · rcases hsv : selectVideo c with _ | v
      · simp [wkDownloadVideo, hres, hsv]
      · simp [wkDownloadVideo, hres, hsv, hsa]

theorem stream_selector_correct_witness :
    Event.error "No suitable video or audio streams found"
      ∈ eventsOf (gptRun gptEnvNoAudio) :=
  ((stream_selector_correct [vStream]).2.2.2.2.1 gptEnvNoAudio "t"
    (by decide) rfl (Or.inr (by rfl))).2

theorem dropWhile_head_not {α : Type} (p : α → Bool) (l : List α) :
    ∀ c, (l.dropWhile p).head? = some c → p c = false := by
  induction l with
  | nil =>
      intro c h
      simp [List.dropWhile] at h
  | cons x xs ih =>
      intro c h
      rw [List.dropWhile_cons] at h
      by_cases hx : p x
      · rw [if_pos hx] at h
        exact ih c h
      · rw [if_neg hx] at h
        rw [List.head?_cons, Option.some.injEq] at h
        rw [← h]
        exact Bool.eq_false_iff.mpr hx

theorem rstrip_mem {c : Char} {l : List Char} (h : c ∈ rstrip l) : c ∈ l := by
  unfold rstrip at h
  rw [List.mem_reverse] at h
  have := (List.dropWhile_sublist pyIsSpace (l := l.reverse)).mem h
  rwa [List.mem_reverse] at this

theorem rstrip_getLast_not_space (l : List Char) :
    ∀ c, (rstrip l).getLast? = some c → pyIsSpace c = false := by
  intro c h
  unfold rstrip at h
  rw [List.getLast?_reverse] at h
  exact dropWhile_head_not pyIsSpace l.reverse c h

/-- C7 is refuted on the worker-module variant: a title with no permitted
characters sanitizes to the empty name, and no fallback is applied. -/
theorem sanitize_title_counterexample : wkSafeTitle "???".data = [] := by
  rfl

/-- C7 amended: the final-project sanitizer keeps only letters, digits,
spaces, underscores and hyphens, trims trailing whitespace, is never empty,
and falls back to the fixed name `ytdl` when nothing permitted remains; the
worker-module sanitizer keeps and trims the same characters but has no
fallback, so it can return the empty name. -/
theorem sanitize_title_amended :
    (∀ t : List Char,
       gptSafeTitle t ≠ []
       ∧ (∀ c ∈ gptSafeTitle t, allowedChar c = true)
       ∧ (∀ c, (gptSafeTitle t).getLast? = some c → pyIsSpace c = false)
       ∧ ((rstrip (t.filter allowedChar)).isEmpty = true →
            gptSafeTitle t = "ytdl".data))
    ∧ (∀ t : List Char,
       (∀ c ∈ wkSafeTitle t, allowedChar c = true)
       ∧ (∀ c, (wkSafeTitle t).getLast? = some c → pyIsSpace c = false)) := by
  constructor
  · intro t
    refine ⟨?_, ?_, ?_, ?_⟩
    · unfold gptSafeTitle
      by_cases h : (rstrip (t.filter allowedChar)).isEmpty
      · rw [if_pos h]
        decide
      · rw [if_neg h]
        rw [Bool.not_eq_true, List.isEmpty_eq_false_iff_exists_mem] at h
        obtain ⟨x, hx⟩ := h
        exact List.ne_nil_of_mem hx
    · intro c hc
      unfold gptSafeTitle at hc
      by_cases h : (rstrip (t.filter allowedChar)).isEmpty
      · rw [if_pos h] at hc
        revert hc
        revert c
        decide
      · rw [if_neg h] at hc
        exact (List.mem_filter.mp (rstrip_mem hc)).2
    · intro c hc
      unfold gptSafeTitle at hc
      by_cases h : (rstrip (t.filter allowedChar)).isEmpty
      · rw [if_pos h] at hc
        have hl : ("ytdl".data : List Char).getLast? = some 'l' := by decide
        rw [hl, Option.some.injEq] at hc
        rw [← hc]
        decide
      · rw [if_neg h] at hc
        exact rstrip_getLast_not_space _ c hc
    · intro h
      unfold gptSafeTitle
      rw [if_pos h]
  · intro t
    constructor
    · intro c hc
      exact (List.mem_filter.mp (rstrip_mem hc)).2
    · exact rstrip_getLast_not_space _

@[simp] theorem finishedCount_nil : finishedCount [] = 0 := rfl

@[simp] theorem finishedCount_cons_finished (tr : List Act) :
    finishedCount (.emit .finished :: tr) = finishedCount tr + 1 := rfl

@[simp] theorem finishedCount_cons_progress (n : ℤ) (tr : List Act) :
    finishedCount (.emit (.progress n) :: tr) = finishedCount tr := rfl

@[simp] theorem finishedCount_cons_message (s : String) (tr : List Act) :
    finishedCount (.emit (.message s) :: tr) = finishedCount tr := rfl

@[simp] theorem finishedCount_cons_error (s : String) (tr : List Act) :
    finishedCount (.emit (.error s) :: tr) = finishedCount tr := rfl

@[simp] theorem finishedCount_cons_makeDirs (p : String) (tr : List Act) :
    finishedCount (.makeDirs p :: tr) = finishedCount tr := rfl

@[simp] theorem finishedCount_cons_downloadVideo (i : ℕ) (tr : List Act) :
    finishedCount (.downloadVideo i :: tr) = finishedCount tr := rfl

@[simp] theorem finishedCount_cons_downloadAudio (i : ℕ) (tr : List Act) :
    finishedCount (.downloadAudio i :: tr) = finishedCount tr := rfl

@[simp] theorem finishedCount_cons_spawnMerge (p : String) (tr : List Act) :
    finishedCount (.spawnMerge p :: tr) = finishedCount tr := rfl

@[simp] theorem finishedCount_cons_removeTree (p : String) (tr : List Act) :
    finishedCount (.removeTree p :: tr) = finishedCount tr := rfl

@[simp] theorem finishedCount_append (l1 l2 : List Act) :
    finishedCount (l1 ++ l2) = finishedCount l1 + finishedCount l2 := by
  induction l1 with
  | nil => simp
  | cons a l ih =>
      rcases a with p | i | i | o | p | e
      · simpa using ih
      · simpa using ih
      · simpa using ih
      · simpa using ih
      · simpa using ih
      · rcases e with n | s | s | _
        · simpa using ih
        · simpa using ih
        · simpa using ih
        · simp [ih]
          omega

@[simp] theorem finishedCount_map_emit_progress {α : Type} (f : α → ℤ)
    (l : List α) :
    finishedCount (l.map fun x => Act.emit (.progress (f x))) = 0 := by
  induction l with
  | nil => rfl
  | cons x xs ih => simpa using ih

@[simp] theorem finishedCount_gptVideoCallbackActs (raw vs asz : ℤ)
    (rems : List ℤ) :
    finishedCount (gptVideoCallbackActs raw vs asz rems) = 0 := by
  unfold gptVideoCallbackActs
  exact finishedCount_map_emit_progress _ _

@[simp] theorem finishedCount_gptAudioCallbackActs (raw vs asz : ℤ)
    (rems : List ℤ) :
    finishedCount (gptAudioCallbackActs raw vs asz rems) = 0 := by
  unfold gptAudioCallbackActs
  exact finishedCount_map_emit_progress _ _

@[simp] theorem finishedCount_wkCallbackActs (total : ℤ) (rems : List ℤ) :
    finishedCount (wkCallbackActs total rems) = 0 := by
  unfold wkCallbackActs
  induction rems with
  | nil => rfl
  | cons r rs ih =>
      by_cases h : total = 0
      · simpa [h] using ih
      · simpa [h] using ih

theorem finishedCount_wkDownloadVideo (env : WkEnv) :
    finishedCount (wkDownloadVideo env).1 = 0 := by
  rcases henv : env.resolve with ⟨catalog, title⟩ | _ | m | m
  · rcases hsv : selectVideo catalog with _ | v
    · simp [wkDownloadVideo, henv, hsv]
    · rcases hsa : selectAudio catalog with _ | a
      · simp [wkDownloadVideo, henv, hsv, hsa]
      · rcases hvd : env.videoDlExn with _ | m1
        · rcases had : env.audioDlExn with _ | m2
          · rcases hm : env.merge with _ | ⟨st, es⟩ | es | es
            · simp [wkDownloadVideo, henv, hsv, hsa, hvd, had, hm]
            · simp [wkDownloadVideo, henv, hsv, hsa, hvd, had, hm]
            · simp [wkDownloadVideo, henv, hsv, hsa, hvd, had, hm]
            · simp [wkDownloadVideo, henv, hsv, hsa, hvd, had, hm]
          · simp [wkDownloadVideo, henv, hsv, hsa, hvd, had]
        · simp [wkDownloadVideo, henv, hsv, hsa, hvd]
  · simp [wkDownloadVideo, henv]
  · simp [wkDownloadVideo, henv]
  · simp [wkDownloadVideo, henv]

theorem getLast?_cons_of_ne_nil {α : Type} (a : α) {l : List α} (h : l ≠ []) :
    (a :: l).getLast? = l.getLast? := by
  cases l with
  | nil => exact absurd rfl h
  | cons b t => exact List.getLast?_cons_cons

theorem getLast?_append_of_ne_nil {α : Type} (l1 : List α) {l2 : List α}
    (h : l2 ≠ []) : (l1 ++ l2).getLast? = l2.getLast? := by
  rw [List.getLast?_append]
  cases l2 with
  | nil => exact absurd rfl h
  | cons b t =>
      rcases h2 : (b :: t).getLast? with _ | x
      · exact absurd (List.getLast?_eq_none_iff.mp h2) (by simp)
      · simp [h2, Option.or]

theorem selectVideo_pair : selectVideo [vStream, aStream] = some vStream := by
  rfl

theorem selectAudio_pair : selectAudio [vStream, aStream] = some aStream := by
  rfl

/-- C2 is refuted: on the empty-url terminal path the final-project worker
emits no `finished` event at all. -/
theorem finished_once_counterexample :
    finishedCount (gptRun gptEnvEmptyUrl) = 0 := by
  simp [gptRun, gptEnvEmptyUrl, gptEnvSuccess]

/-- C2 amended: the worker-module variant emits `finished` exactly once on
every terminal path (though a cleanup-failure `error` event may follow it);
the final-project variant emits `finished` exactly once — as its last
event — on the success path, and not at all on any failure path. -/
theorem finished_exactly_once_amended :
    (∀ env : WkEnv, finishedCount (wkRun env) = 1)
    ∧ (∀ env : GptEnv,
        finishedCount (gptRun env) = (if gptSuccess env then 1 else 0))
    ∧ (∀ env : GptEnv, gptSuccess env = true →
        (eventsOf (gptRun env)).getLast? = some Event.finished) := by
  refine ⟨?_, ?_, ?_⟩
  · intro env
    have h0 := finishedCount_wkDownloadVideo env
    rcases hb : (wkDownloadVideo env).2 with _ | m
    · rcases ht : env.tempExists with _ | _
      · simp [wkRun, hb, ht, h0]
      · rcases hr : env.rmtreeExn with _ | m2
        · simp [wkRun, hb, ht, hr, h0]
        · simp [wkRun, hb, ht, hr, h0]
    · rcases ht : env.tempExists with _ | _
      · simp [wkRun, hb, ht, h0]
      · rcases hr : env.rmtreeExn with _ | m2
        · simp [wkRun, hb, ht, hr, h0]
        · simp [wkRun, hb, ht, hr, h0]
  · intro env
    by_cases hurl : env.url = ""
    · simp [gptRun, gptSuccess, hurl]
    · rcases henv : env.resolve with m | ⟨catalog, title⟩
      · simp [gptRun, gptSuccess, hurl, henv]
      · rcases hsv : selectVideo catalog with _ | v
        · simp [gptRun, gptSuccess, hurl, henv, hsv]
        · rcases hsa : selectAudio catalog with _ | a
          · simp [gptRun, gptSuccess, hurl, henv, hsv, hsa]
          · rcases hvd : env.videoDlExn with _ | m1
            · rcases had : env.audioDlExn with _ | m2
              · rcases hsp : env.spawnExn with _ | m3
                · rcases hcm : env.commExn with _ | m4
                  · by_cases hrc : env.returncode = 0
                    · simp [gptRun, gptSuccess, hurl, henv, hsv, hsa, hvd,
                        had, hsp, hcm, hrc]
                    · simp [gptRun, gptSuccess, hurl, henv, hsv, hsa, hvd,
                        had, hsp, hcm, hrc]
                  · simp [gptRun, gptSuccess, hurl, henv, hsv, hsa, hvd,
                      had, hsp, hcm]
                · simp [gptRun, gptSuccess, hurl, henv, hsv, hsa, hvd,
                    had, hsp]
              · simp [gptRun, gptSuccess, hurl, henv, hsv, hsa, hvd, had]
            · simp [gptRun, gptSuccess, hurl, henv, hsv, hsa, hvd]
  · intro env hsucc
    simp only [gptSuccess, Bool.and_eq_true, Bool.not_eq_true',
      beq_eq_false_iff_ne, Option.isNone_iff_eq_none, beq_iff_eq] at hsucc
    obtain ⟨⟨⟨⟨⟨⟨hurl, hres⟩, hvd⟩, had⟩, hsp⟩, hcm⟩, hrc⟩ := hsucc
    rcases henv : env.resolve with m | ⟨catalog, title⟩
    · rw [henv] at hres
      exact absurd hres (by simp)
    · rw [henv, Bool.and_eq_true] at hres
      obtain ⟨hv, ha⟩ := hres
      obtain ⟨v, hsv⟩ := Option.isSome_iff_exists.mp hv
      obtain ⟨a, hsa⟩ := Option.isSome_iff_exists.mp ha
      simp [gptRun, hurl, henv, hsv, hsa, hvd, had, hsp, hcm, hrc,
        getLast?_cons_of_ne_nil, getLast?_append_of_ne_nil]

theorem finished_exactly_once_amended_witness :
    (eventsOf (gptRun gptEnvSuccess)).getLast? = some Event.finished :=
  finished_exactly_once_amended.2.2 gptEnvSuccess (by rfl)

/-- C3 is refuted: the final-project worker never deletes its scratch
workspace — even a fully successful terminal run contains no recursive
delete action. -/
theorem scratch_cleanup_counterexample :
    (gptRun gptEnvSuccess).all (fun a => !(isRemoveTree a)) = true
    ∧ Event.finished ∈ eventsOf (gptRun gptEnvSuccess) := by
  constructor
  · simp [gptRun, gptEnvSuccess, selectVideo_pair, selectAudio_pair,
      isRemoveTree, rampEmits, gptVideoCallbackActs, gptAudioCallbackActs]
  · simp [gptRun, gptEnvSuccess, selectVideo_pair, selectAudio_pair]

theorem wkDownloadVideo_cleanup_irrel (env : WkEnv) (t : Bool)
    (x : Option String) :
    wkDownloadVideo { env with tempExists := t, rmtreeExn := x }
      = wkDownloadVideo env := rfl

/-- C3 amended: the worker-module variant attempts the recursive scratch
deletion on every terminal path on which the scratch folder exists, and a
cleanup failure only appends a warning-level `error` event after the
terminal `finished` event, leaving the rest of the trace — hence the job's
recorded outcome — unchanged; the final-project variant never deletes its
scratch workspace. -/
theorem scratch_cleanup_amended :
    (∀ env : WkEnv, env.tempExists = true →
       Act.removeTree "/tmp/ytbr" ∈ wkRun env)
    ∧ (∀ env : WkEnv, ∀ m : String, env.tempExists = true →
        wkRun { env with rmtreeExn := some m }
          = wkRun { env with rmtreeExn := none }
            ++ [Act.emit (.error "Failed to clean up tempFiles:")]) := by
  constructor
  · intro env ht
    rcases hr : env.rmtreeExn with _ | m
    · simp [wkRun, ht, hr]
    · simp [wkRun, ht, hr]
  · intro env m ht
    simp [wkRun, wkDownloadVideo_cleanup_irrel, ht, List.append_assoc]

theorem scratch_cleanup_amended_witness :
    Act.removeTree "/tmp/ytbr" ∈ wkRun wkEnvRegex :=
  scratch_cleanup_amended.1 wkEnvRegex rfl

theorem sanitize_title_amended_witness : allowedChar 'y' = true :=
  (sanitize_title_amended.1 "yes!".data).2.1 'y' (by decide)

/-- C8 is refuted on the worker-module variant: two distinct jobs (different
urls and destination folders) are given the same constant scratch path
`/tmp/ytbr`. -/
theorem scratch_unique_counterexample :
    ("urlA" : String) ≠ "urlB"
      ∧ wkTempFolder "urlA" "/f1" = wkTempFolder "urlB" "/f2" :=
  ⟨by decide, rfl⟩

/-- C8 amended: in the final-project variant the scratch path is
`/tmp/ytbr_` followed by the job's uuid hex, so jobs with distinct uuids get
distinct scratch paths; in the worker-module variant every job shares the
fixed scratch path `/tmp/ytbr`. -/
theorem scratch_unique_amended :
    (∀ h1 h2 : String, h1 ≠ h2 → gptTempFolder h1 ≠ gptTempFolder h2)
    ∧ ∀ u1 f1 u2 f2 : String, wkTempFolder u1 f1 = wkTempFolder u2 f2 := by
  constructor
  · intro h1 h2 hne heq
    apply hne
    have hd := congrArg String.data heq
    simp only [gptTempFolder, String.data_append] at hd
    exact String.ext (List.append_cancel_left hd)
  · intro u1 f1 u2 f2
    rfl

theorem scratch_unique_amended_witness :
    gptTempFolder "aaaa" ≠ gptTempFolder "bbbb" :=
  scratch_unique_amended.1 "aaaa" "bbbb" (by decide)
